import Mathlib

/-!
Verification of the pixel-processing core of the Overlay repository.

The TypeScript source is shallowly embedded:
* flat RGBA pixel buffers (`Uint8ClampedArray`) are modelled as functions
  `Nat → Nat` from flat index to byte value (reads are total, matching the
  fact that the code only reads in-bounds indices on the paths modelled),
  or as `List Nat` where the length of the buffer matters;
* in-place writes of a loop pass are modelled as a `List.foldl` over the
  loop's index list, threading the output buffer through `Function.update`,
  so the visiting order of the source loop is preserved;
* JavaScript double arithmetic on exactly representable small values is
  modelled by exact arithmetic (`ℚ`, or integers scaled to clear the `/3`
  of the luminance average).
-/

namespace Overlay

/-! ## Dilator (`dilate` in `foregroundDetection.ts`) -/

/-- The neighbour test of `dilate`: any of the eight flat-index neighbours of
`idx` (offsets `±width`, `±1`, `±width±1`, exactly as in the source) holds the
foreground value `255` in the snapshot buffer `temp`. -/
def hasWhiteNeighbor (temp : Nat → Nat) (width idx : Nat) : Prop :=
  temp (idx - width - 1) = 255 ∨
  temp (idx - width) = 255 ∨
  temp (idx - width + 1) = 255 ∨
  temp (idx - 1) = 255 ∨
  temp (idx + 1) = 255 ∨
  temp (idx + width - 1) = 255 ∨
  temp (idx + width) = 255 ∨
  temp (idx + width + 1) = 255

instance (temp : Nat → Nat) (width idx : Nat) :
    Decidable (hasWhiteNeighbor temp width idx) := by
  unfold hasWhiteNeighbor; infer_instance

/-- One iteration of `dilate`: the double loop over `y ∈ [1, height-2]`,
`x ∈ [1, width-2]` (row-major, as in the source) that sets `result[idx] := 255`
whenever a neighbour in the snapshot `temp` is `255`.  `res` is the `result`
buffer being written, `temp` the previous iteration's complete state. -/
def dilatePass (temp res : Nat → Nat) (width height : Nat) : Nat → Nat :=
  (List.range' 1 (height - 2)).foldl (fun r y =>
    (List.range' 1 (width - 2)).foldl (fun r x =>
      if hasWhiteNeighbor temp width (y * width + x) then
        Function.update r (y * width + x) 255
      else r) r) res

/-- Source `dilate(data, width, height, iterations)`: `result` and
`temp` start as copies of `data`; each iteration runs `dilatePass` reading
`temp` and writing `result`, then copies `result` back into `temp`, so at the
start of every iteration both buffers agree. -/
def dilate (data : Nat → Nat) (width height : Nat) : Nat → Nat → Nat
  | 0 => data
  | n + 1 => dilatePass (dilate data width height n) (dilate data width height n) width height

/-- The reference "parallel" dilation step of the specification: working in
two-dimensional coordinates, a non-border pixel `(x, y)` becomes `255` iff it
was `255` or any of its eight two-dimensional neighbours was `255` in the
previous pass's complete result `m`; border pixels (row/col `0` or max) keep
their prior value. -/
def refDilateStep (m : Nat → Nat) (width height x y : Nat) : Nat :=
  if 1 ≤ x ∧ x + 1 < width ∧ 1 ≤ y ∧ y + 1 < height then
    if m ((y - 1) * width + (x - 1)) = 255 ∨ m ((y - 1) * width + x) = 255 ∨
       m ((y - 1) * width + (x + 1)) = 255 ∨ m (y * width + (x - 1)) = 255 ∨
       m (y * width + x) = 255 ∨ m (y * width + (x + 1)) = 255 ∨
       m ((y + 1) * width + (x - 1)) = 255 ∨ m ((y + 1) * width + x) = 255 ∨
       m ((y + 1) * width + (x + 1)) = 255
    then 255 else m (y * width + x)
  else m (y * width + x)

/-- Iteration of the reference parallel step `k` times, each pass reading the
previous pass's complete result. -/
def refDilate (data : Nat → Nat) (width height : Nat) : Nat → Nat → Nat
  | 0 => data
  | k + 1 => fun j =>
      refDilateStep (refDilate data width height k) width height (j % width) (j / width)

/-! ## Sobel edge detection (`applySobelOperator` in `foregroundDetection.ts`)

The source computes luminances as `(R + G + B) / 3` in floating point and the
gradient magnitude as `Math.sqrt(Gx² + Gy²)`.  To stay in exact integer
arithmetic the embedding carries `3 ×` every luminance (so `getGray3` is three
times the source's `getGray`), hence `sobelGx3`/`sobelGy3` are `3 ×` the source
gradients and `sobelMagSq9` is `9 ×` the squared magnitude. -/

/-- Three times the source's `getGray(data, index)`: the sum of the three colour
channels of pixel `index` (the source divides this sum by 3). -/
def getGray3 (data : Nat → Nat) (index : Nat) : ℤ :=
  ((data (4 * index) + data (4 * index + 1) + data (4 * index + 2) : Nat) : ℤ)

/-- Three times the source's `horizontalGradient` at interior pixel `(x, y)`. -/
def sobelGx3 (data : Nat → Nat) (width x y : Nat) : ℤ :=
  -1 * getGray3 data ((y - 1) * width + (x - 1)) +
  -2 * getGray3 data (y * width + (x - 1)) +
  -1 * getGray3 data ((y + 1) * width + (x - 1)) +
  1 * getGray3 data ((y - 1) * width + (x + 1)) +
  2 * getGray3 data (y * width + (x + 1)) +
  1 * getGray3 data ((y + 1) * width + (x + 1))

/-- Three times the source's `verticalGradient` at interior pixel `(x, y)`. -/
def sobelGy3 (data : Nat → Nat) (width x y : Nat) : ℤ :=
  -1 * getGray3 data ((y - 1) * width + (x - 1)) +
  -2 * getGray3 data ((y - 1) * width + x) +
  -1 * getGray3 data ((y - 1) * width + (x + 1)) +
  1 * getGray3 data ((y + 1) * width + (x - 1)) +
  2 * getGray3 data ((y + 1) * width + x) +
  1 * getGray3 data ((y + 1) * width + (x + 1))

/-- Nine times the squared gradient magnitude `Gx² + Gy²` at `(x, y)`. -/
def sobelMagSq9 (data : Nat → Nat) (width x y : Nat) : ℤ :=
  sobelGx3 data width x y * sobelGx3 data width x y +
  sobelGy3 data width x y * sobelGy3 data width x y

/-- The byte the source stores into `result[y*width+x]`:
`Math.min(255, Math.sqrt(Gx² + Gy²))` assigned to a `Uint8ClampedArray`, which
rounds to the nearest integer.  With `m = 9·(Gx² + Gy²)` the exact magnitude is
`√m / 3`, whose nearest integer is `⌊(⌊√(4·m)⌋ + 3) / 6⌋`; no rounding ties can
occur because `√m / 3` is a half-integer only if `4·m = 9·(2k+1)²`, which is
impossible for integral `m`, and clamping at 255 before or after rounding
agrees. -/
def sobelStored (data : Nat → Nat) (width x y : Nat) : Nat :=
  min 255 ((Nat.sqrt (4 * (sobelMagSq9 data width x y).toNat) + 3) / 6)

/-- The full `sobelData` array of `applySobelOperator`, as a function of pixel
coordinates: interior pixels (the double loop `1 ≤ x < width-1`,
`1 ≤ y < height-1`) hold the stored magnitude byte, all others stay `0`. -/
def applySobelOperator (data : Nat → Nat) (width height x y : Nat) : Nat :=
  if 1 ≤ x ∧ x + 1 < width ∧ 1 ≤ y ∧ y + 1 < height then
    sobelStored data width x y
  else 0

/-- The standard-mode mask of `detectForeground`:
`mask[i] = sobelData[i] > 50 ? 255 : 0` (threshold 50). -/
def standardMask (data : Nat → Nat) (width height x y : Nat) : Nat :=
  if 50 < applySobelOperator data width height x y then 255 else 0

/-- A 3×3 RGBA test image: all pixels black except the middle-right pixel
`(2,1)` with RGB `(25,25,25)` and the bottom-middle pixel `(1,2)` with RGB
`(2,2,2)`.  At the centre `(1,1)` this gives `Gx = 50`, `Gy = 4`, so the exact
gradient magnitude is `√2516 ≈ 50.16`. -/
def ex3data : Nat → Nat := fun i =>
  [0, 0, 0, 255, 0, 0, 0, 255, 0, 0, 0, 255,
   0, 0, 0, 255, 0, 0, 0, 255, 25, 25, 25, 255,
   0, 0, 0, 255, 2, 2, 2, 255, 0, 0, 0, 255].getD i 0

/-! ## Fast edge detection (`fastEdgeDetection` in `foregroundDetection.ts`) -/

/-- Sampled coordinates of `fastEdgeDetection`'s loops
(`for (let v = step; v < dim - step; v += step)` with `step = 2`): the even
values in `[2, dim - 3]`; the count `(dim - 3) / 2` makes the list exactly
that range. -/
def sampledCoords (dim : Nat) : List Nat := List.range' 2 ((dim - 3) / 2) 2

/-- The offsets `-1 ≤ d ≤ 1` of the 3×3 marking loops. -/
def neighborOffsets : List ℤ := [-1, 0, 1]

/-- The flat index `ni = pixelIndex + dy * width + dx` written by the 3×3
marking loop of `fastEdgeDetection`, in `ℤ` as in the source (where `ni` can
in principle be negative, hence the `ni >= 0` guard). -/
def fastTarget (width x y : Nat) (dx dy : ℤ) : ℤ :=
  ((y * width + x : Nat) : ℤ) + dy * (width : ℤ) + dx

/-- The colour difference of `fastEdgeDetection` at sampled pixel `(x, y)`:
the larger of the horizontal and vertical sums of absolute per-channel
differences to the pixel `2` positions to the right / below. -/
def fastDiff (data : Nat → Nat) (width x y : Nat) : Nat :=
  let idx := (y * width + x) * 4
  let r := data idx
  let g := data (idx + 1)
  let b := data (idx + 2)
  let rightIdx := (y * width + x + 2) * 4
  let dr := ((r : ℤ) - data rightIdx).natAbs
  let dg := ((g : ℤ) - data (rightIdx + 1)).natAbs
  let db := ((b : ℤ) - data (rightIdx + 2)).natAbs
  let downIdx := ((y + 2) * width + x) * 4
  let dr2 := ((r : ℤ) - data downIdx).natAbs
  let dg2 := ((g : ℤ) - data (downIdx + 1)).natAbs
  let db2 := ((b : ℤ) - data (downIdx + 2)).natAbs
  max (dr + dg + db) (dr2 + dg2 + db2)

/-- Model of `fastEdgeDetection`: a zero-initialised `width*height` result buffer; for
every sampled `(x, y)` whose colour difference exceeds the threshold `30`, the
full 3×3 neighbourhood around the pixel is marked `255`, each write guarded by
`0 ≤ ni < width*height` as in the source. -/
def fastEdgeDetection (data : Nat → Nat) (width height : Nat) : Nat → Nat :=
  (sampledCoords height).foldl (fun res y =>
    (sampledCoords width).foldl (fun res x =>
      if 30 < fastDiff data width x y then
        neighborOffsets.foldl (fun res dy =>
          neighborOffsets.foldl (fun res dx =>
            if 0 ≤ fastTarget width x y dx dy ∧
                fastTarget width x y dx dy < ((width * height : Nat) : ℤ) then
              Function.update res (fastTarget width x y dx dy).toNat 255
            else res) res) res
      else res) res) (fun _ => 0)

/-! ## Alpha-threshold mask (`createMaskFromForeground` in the IMG.LY variant
of `foregroundDetection.ts`) -/

/-- Model of `createMaskFromForeground`: from flat RGBA `data` build a mask with one
entry per pixel (`data.length / 4`), each entry `255` when that pixel's alpha
channel `data[4p+3]` exceeds `128`, else `0`. -/
def createMaskFromForeground (data : List Nat) : List Nat :=
  (List.range (data.length / 4)).map fun p =>
    if 128 < data.getD (4 * p + 3) 0 then 255 else 0

/-! ## Compositors -/

/-- Step 8 of the canvas-variant `detectForeground` (Compositor Strategy A):
for byte index `j` of the flat RGBA frame, pixel `maskIndex = j / 4`; if the
dilated mask marks the pixel foreground (`255`) the original byte is kept,
otherwise the text layer's byte is taken when the text alpha `textData[i+3]`
at that pixel is positive, else the original byte is kept. -/
def compositeTextBehindMask (dilatedMask data textData : Nat → Nat) (j : Nat) : Nat :=
  let maskIndex := j / 4
  if dilatedMask maskIndex = 255 then data j
  else if 0 < textData (4 * maskIndex + 3) then textData j
  else data j

/-- Step 5 of `renderCompositeImage` in `ImageTextOverlay.tsx`: the text is
placed at pixels whose mask entry is *not* `255` and whose text alpha is
positive; all other bytes keep the background value. -/
def renderCompositeTextPass (mask bgData textData : Nat → Nat) (j : Nat) : Nat :=
  let maskIndex := j / 4
  if mask maskIndex ≠ 255 then
    if 0 < textData (4 * maskIndex + 3) then textData j else bgData j
  else bgData j

/-- Canvas `source-over` output alpha for straight (non-premultiplied)
normalised alphas `sa` (source) and `da` (destination):
`outA = sa + da·(1 - sa)`. -/
def srcOverAlpha (sa da : ℚ) : ℚ := sa + da * (1 - sa)

/-- Canvas `source-over` output colour channel for straight normalised
channels: `outC = (sc·sa + dc·da·(1 - sa)) / outA` (and `0` for a fully
transparent result).  This models the final `drawImage` of the cutout in
`renderCompositeImage`, in exact rational arithmetic. -/
def srcOverColor (sc sa dc da : ℚ) : ℚ :=
  if srcOverAlpha sa da = 0 then 0
  else (sc * sa + dc * da * (1 - sa)) / srcOverAlpha sa da

/-- Final alpha of `renderCompositeImage` at pixel `p` (normalised to `[0,1]`):
the cutout (drawn last) composited over the text-over-background layer. -/
def renderCompositeFinalAlpha (mask bg text cut : Nat → Nat) (p : Nat) : ℚ :=
  srcOverAlpha ((cut (4 * p + 3) : ℚ) / 255)
    ((renderCompositeTextPass mask bg text (4 * p + 3) : ℚ) / 255)

/-- Final colour channel `c` of `renderCompositeImage` at pixel `p`
(normalised to `[0,1]`): the cutout channel composited over the
text-over-background layer with `source-over`. -/
def renderCompositeFinalColor (mask bg text cut : Nat → Nat) (p c : Nat) : ℚ :=
  srcOverColor ((cut (4 * p + c) : ℚ) / 255) ((cut (4 * p + 3) : ℚ) / 255)
    ((renderCompositeTextPass mask bg text (4 * p + c) : ℚ) / 255)
    ((renderCompositeTextPass mask bg text (4 * p + 3) : ℚ) / 255)

/-! ## Resizer (canvas sizing in `ImageTextOverlay.tsx`) -/

/-- The canvas-size computation of `ImageTextOverlay`: if either dimension
exceeds `maxDimension = 1200` the larger side is set to `1200` and the other
is scaled by the same ratio and floored (`Math.floor(side * ratio)`, the
double ratio modelled exactly in `ℚ`); finally both sides are clamped to at
least `1` by `Math.max(1, ·)`. -/
def computeCanvasSize (imgWidth imgHeight : Nat) : Nat × Nat :=
  let maxDimension : Nat := 1200
  let pair : Nat × Nat :=
    if imgWidth > maxDimension ∨ imgHeight > maxDimension then
      if imgWidth > imgHeight then
        (maxDimension,
         (⌊(imgHeight : ℚ) * ((maxDimension : ℚ) / (imgWidth : ℚ))⌋).toNat)
      else
        ((⌊(imgWidth : ℚ) * ((maxDimension : ℚ) / (imgHeight : ℚ))⌋).toNat,
         maxDimension)
    else (imgWidth, imgHeight)
  (max 1 pair.1, max 1 pair.2)

/-! ## Text rasterisation layout (shared by both variants) -/

/-- JavaScript `content.split('\x0a')` on a string modelled as a list of
characters: splits at every newline, keeping empty segments. -/
def splitLines : List Char → List (List Char)
  | [] => [[]]
  | c :: rest =>
    if c = '\n' then [] :: splitLines rest
    else
      match splitLines rest with
      | [] => [[c]]
      | l :: ls => (c :: l) :: ls

/-- The per-line draw commands of the text pass: line `index` is drawn with
`fillText(line, textX, textY + (index - lines.length / 2 + 0.5) * lineHeight)`
where `lineHeight = size * 1.2`, the canvas `textAlign` being `center` so every
line shares the horizontal centre `textX`.  Doubles are modelled by exact
rationals. -/
def textDrawCommands (content : List Char) (textX textY size : ℚ) :
    List (List Char × ℚ × ℚ) :=
  let lines := splitLines content
  let lineHeight := size * 1.2
  (List.range lines.length).map fun index =>
    (lines.getD index [], textX,
     textY + ((index : ℚ) - (lines.length : ℚ) / 2 + 0.5) * lineHeight)

/-! ## Mask-generation error handling (canvas-variant `detectForeground`) -/

/-- The mask produced on the success path of the canvas-variant
`detectForeground` (with `returnMaskOnly`): the edge mask (fast or Sobel
standard mode) dilated `1` (fast) or `2` (standard) iterations, one entry per
pixel (`data.length / 4`). -/
def computeMaskList (data : List Nat) (width height : Nat) (fastMode : Bool) :
    List Nat :=
  let dataF : Nat → Nat := fun i => data.getD i 0
  let mask : Nat → Nat :=
    if fastMode then fastEdgeDetection dataF width height
    else fun i => standardMask dataF width height (i % width) (i / width)
  let iterations : Nat := if fastMode then 1 else 2
  (List.range (data.length / 4)).map (dilate mask width height iterations)

/-- The canvas-variant `detectForeground`'s control flow around the mask
computation: non-positive canvas dimensions return an empty mask before
anything runs; an unavailable 2D context returns an empty mask; inside the
`try`, empty pixel data returns an empty mask, and any exception of the
drawing/reading steps (abstracted as the `Except` argument `getData`) is
caught and converted to an empty mask. -/
def detectForegroundModel (canvasWidth canvasHeight : Int) (ctxAvailable : Bool)
    (getData : Except String (List Nat)) (fastMode : Bool) : List Nat :=
  if canvasWidth ≤ 0 ∨ canvasHeight ≤ 0 then []
  else if ctxAvailable = false then []
  else
    match getData.bind (fun data =>
      if data.length = 0 then Except.ok []
      else Except.ok (computeMaskList data canvasWidth.toNat canvasHeight.toNat fastMode)) with
    | Except.ok m => m
    | Except.error _ => []

/-- Generic lemma for loops that conditionally store the constant `255` into a
buffer: a `foldl` of conditional `255`-writes, read at index `j`, yields `255`
exactly when some loop element writes `j`, and the initial buffer value
otherwise.  The condition of each write must not depend on the buffer being
written (`hw`), which is the shape of every mask-writing loop in the source. -/
theorem foldl_condUpdate_apply {α : Type} (w : α → (Nat → Nat) → Nat → Nat)
    (hit : α → Nat → Prop) [∀ a j, Decidable (hit a j)]
    (hw : ∀ a r j, w a r j = if hit a j then 255 else r j)
    (L : List α) (r0 : Nat → Nat) (j : Nat) :
    (L.foldl (fun r a => w a r) r0) j = if ∃ a ∈ L, hit a j then 255 else r0 j := by
  induction L generalizing r0 with
  | nil => simp
  | cons a L ih =>
    simp only [List.foldl_cons]
    rw [ih]
    by_cases h : hit a j
    · simp [h, hw]
    · by_cases hL : ∃ b ∈ L, hit b j
      · simp [h, hL]
      · simp [h, hL, hw]

theorem dilatePass_apply (temp res : Nat → Nat) (width height j : Nat) :
    dilatePass temp res width height j =
      if ∃ y ∈ List.range' 1 (height - 2), ∃ x ∈ List.range' 1 (width - 2),
           hasWhiteNeighbor temp width (y * width + x) ∧ y * width + x = j
      then 255 else res j := by
  unfold dilatePass
  refine foldl_condUpdate_apply _
    (fun y j => ∃ x ∈ List.range' 1 (width - 2),
      hasWhiteNeighbor temp width (y * width + x) ∧ y * width + x = j) ?_ _ res j
  intro y r j
  refine foldl_condUpdate_apply _
    (fun x j => hasWhiteNeighbor temp width (y * width + x) ∧ y * width + x = j) ?_ _ r j
  intro x r j
  by_cases h : hasWhiteNeighbor temp width (y * width + x)
  · simp only [h, if_true, Function.update_apply, true_and]
    by_cases hj : y * width + x = j
    · simp [hj]
    · have hj2 : ¬ j = y * width + x := fun hh => hj hh.symm
      simp [hj, hj2]
  · simp [h]

/-- Decomposition of a flat index produced by the dilation loop: if
`y * width + x = j` with `x < width`, then `x` and `y` are recovered by `%` and
`/`. -/
theorem mod_div_of_eq {width x y j : Nat} (hxw : x < width) (hpos : y * width + x = j) :
    j % width = x ∧ j / width = y := by
  subst hpos
  constructor
  · rw [Nat.mul_comm, Nat.mul_add_mod]
    exact Nat.mod_eq_of_lt hxw
  · rw [Nat.mul_comm, Nat.mul_add_div (by omega)]
    simp [Nat.div_eq_of_lt hxw]

theorem dilatePass_eq_refDilateStep (temp : Nat → Nat) (width height j : Nat) :
    dilatePass temp temp width height j =
      refDilateStep temp width height (j % width) (j / width) := by
  rw [dilatePass_apply]
  have hcenter : (j / width) * width + j % width = j := by
    rw [Nat.mul_comm]; exact Nat.div_add_mod j width
  by_cases hint : 1 ≤ j % width ∧ j % width + 1 < width ∧ 1 ≤ j / width ∧ j / width + 1 < height
  · -- interior pixel: both sides apply the neighbour test
    obtain ⟨h1x, hxw, h1y, hyh⟩ := hint
    have hex : (∃ y ∈ List.range' 1 (height - 2), ∃ x ∈ List.range' 1 (width - 2),
        hasWhiteNeighbor temp width (y * width + x) ∧ y * width + x = j) ↔
        hasWhiteNeighbor temp width j := by
      constructor
      · rintro ⟨y, hy, x, hx, hW, hpos⟩
        rw [hpos] at hW
        exact hW
      · intro hW
        refine ⟨j / width, ?_, j % width, ?_, ⟨?_, hcenter⟩⟩
        · rw [List.mem_range'_1]; omega
        · rw [List.mem_range'_1]; omega
        · rw [hcenter]; exact hW
    unfold refDilateStep
    rw [if_pos (⟨h1x, hxw, h1y, hyh⟩ :
      1 ≤ j % width ∧ j % width + 1 < width ∧ 1 ≤ j / width ∧ j / width + 1 < height)]
    have hpw : width ≤ j / width * width := Nat.le_mul_of_pos_left width (by omega)
    have hsub : (j / width - 1) * width = (j / width) * width - width := Nat.sub_one_mul _ _
    have hadd : (j / width + 1) * width = (j / width) * width + width := Nat.succ_mul _ _
    have e1 : j - width - 1 = (j / width - 1) * width + (j % width - 1) := by
      rw [hsub]; omega
    have e2 : j - width = (j / width - 1) * width + j % width := by
      rw [hsub]; omega
    have e3 : j - width + 1 = (j / width - 1) * width + (j % width + 1) := by
      rw [hsub]; omega
    have e4 : j - 1 = (j / width) * width + (j % width - 1) := by omega
    have e5 : j + 1 = (j / width) * width + (j % width + 1) := by omega
    have e6 : j + width - 1 = (j / width + 1) * width + (j % width - 1) := by
      rw [hadd]; omega
    have e7 : j + width = (j / width + 1) * width + j % width := by
      rw [hadd]; omega
    have e8 : j + width + 1 = (j / width + 1) * width + (j % width + 1) := by
      rw [hadd]; omega
    have hcj : temp (j / width * width + j % width) = temp j := by rw [hcenter]
    have hB : (temp ((j / width - 1) * width + (j % width - 1)) = 255 ∨
        temp ((j / width - 1) * width + j % width) = 255 ∨
        temp ((j / width - 1) * width + (j % width + 1)) = 255 ∨
        temp (j / width * width + (j % width - 1)) = 255 ∨
        temp (j / width * width + j % width) = 255 ∨
        temp (j / width * width + (j % width + 1)) = 255 ∨
        temp ((j / width + 1) * width + (j % width - 1)) = 255 ∨
        temp ((j / width + 1) * width + j % width) = 255 ∨
        temp ((j / width + 1) * width + (j % width + 1)) = 255) ↔
        (hasWhiteNeighbor temp width j ∨ temp j = 255) := by
      unfold hasWhiteNeighbor
      rw [← e1, ← e2, ← e3, ← e4, ← e5, ← e6, ← e7, ← e8, hcenter]
      constructor
      · rintro (h | h | h | h | h | h | h | h | h)
        · exact Or.inl (Or.inl h)
        · exact Or.inl (Or.inr (Or.inl h))
        · exact Or.inl (Or.inr (Or.inr (Or.inl h)))
        · exact Or.inl (Or.inr (Or.inr (Or.inr (Or.inl h))))
        · exact Or.inr h
        · exact Or.inl (Or.inr (Or.inr (Or.inr (Or.inr (Or.inl h)))))
        · exact Or.inl (Or.inr (Or.inr (Or.inr (Or.inr (Or.inr (Or.inl h))))))
        · exact Or.inl (Or.inr (Or.inr (Or.inr (Or.inr (Or.inr (Or.inr (Or.inl h)))))))
        · exact Or.inl (Or.inr (Or.inr (Or.inr (Or.inr (Or.inr (Or.inr (Or.inr h)))))))
      · rintro ((h | h | h | h | h | h | h | h) | h)
        · exact Or.inl h
        · exact Or.inr (Or.inl h)
        · exact Or.inr (Or.inr (Or.inl h))
        · exact Or.inr (Or.inr (Or.inr (Or.inl h)))
        · exact Or.inr (Or.inr (Or.inr (Or.inr (Or.inr (Or.inl h)))))
        · exact Or.inr (Or.inr (Or.inr (Or.inr (Or.inr (Or.inr (Or.inl h))))))
        · exact Or.inr (Or.inr (Or.inr (Or.inr (Or.inr (Or.inr (Or.inr (Or.inl h)))))))
        · exact Or.inr (Or.inr (Or.inr (Or.inr (Or.inr (Or.inr (Or.inr (Or.inr h)))))))
        · exact Or.inr (Or.inr (Or.inr (Or.inr (Or.inl h))))
    refine Eq.trans (if_congr hex rfl rfl) (Eq.trans ?_ (if_congr hB rfl hcj).symm)
    by_cases hc : temp j = 255
    · by_cases hA : hasWhiteNeighbor temp width j
      · rw [if_pos hA, if_pos (Or.inl hA)]
      · rw [if_neg hA, if_pos (Or.inr hc), hc]
    · by_cases hA : hasWhiteNeighbor temp width j
      · rw [if_pos hA, if_pos (Or.inl hA)]
      · rw [if_neg hA, if_neg (fun h => h.elim hA hc)]
  · -- border or out-of-grid pixel: no loop element writes here
    have hnone : ¬ ∃ y ∈ List.range' 1 (height - 2), ∃ x ∈ List.range' 1 (width - 2),
        hasWhiteNeighbor temp width (y * width + x) ∧ y * width + x = j := by
      rintro ⟨y, hy, x, hx, _, hpos⟩
      rw [List.mem_range'_1] at hy hx
      have hxlt : x < width := by omega
      obtain ⟨hm, hd⟩ := mod_div_of_eq hxlt hpos
      exact hint ⟨by omega, by omega, by omega, by omega⟩
    rw [if_neg hnone]
    unfold refDilateStep
    rw [if_neg hint, hcenter]

/-- C5: dilation is monotone in the iteration count — every pixel that is
foreground (`255`) after `n` iterations of `dilate` is still foreground after
`n + 1` iterations; an iteration never turns a `255` pixel of its input into
anything else. -/
theorem dilate_monotone (data : Nat → Nat) (width height n idx : Nat)
    (h : dilate data width height n idx = 255) :
    dilate data width height (n + 1) idx = 255 := by
  show dilatePass _ _ width height idx = 255
  rw [dilatePass_apply]
  split_ifs with hcond
  · rfl
  · exact h

/-- C5 witness: a concrete 3×3 mask whose centre pixel is foreground stays
foreground after one more dilation iteration. -/
theorem dilate_monotone_witness :
    dilate (fun i => if i = 4 then 255 else 0) 3 3 (0 + 1) 4 = 255 :=
  dilate_monotone (fun i => if i = 4 then 255 else 0) 3 3 0 4 (by decide)

/-- C6: the source's `dilate` (row-major in-place pass over a flat buffer,
reading the previous iteration's snapshot `temp`) coincides, at every flat
index and for every iteration count, with the reference parallel dilation
`refDilate` in which a non-border pixel becomes `255` iff it was `255` or any
of its eight two-dimensional neighbours was `255` in the previous pass's
complete result, and border pixels keep their prior value — so the outcome is
independent of the order in which pixels are visited within a pass. -/
theorem dilate_eq_refDilate (data : Nat → Nat) (width height k j : Nat) :
    dilate data width height k j = refDilate data width height k j := by
  have main : ∀ k, dilate data width height k = refDilate data width height k := by
    intro k
    induction k with
    | zero => rfl
    | succ n ih =>
      funext i
      show dilatePass _ _ width height i = _
      rw [ih]
      exact dilatePass_eq_refDilateStep (refDilate data width height n) width height i
  rw [main k]

theorem mem_sampledCoords {dim v : Nat} :
    v ∈ sampledCoords dim ↔ 2 ≤ v ∧ v + 2 < dim ∧ v % 2 = 0 := by
  unfold sampledCoords
  rw [List.mem_range']
  constructor
  · rintro ⟨i, hi, rfl⟩
    omega
  · rintro ⟨h1, h2, h3⟩
    exact ⟨(v - 2) / 2, by omega, by omega⟩

/-- Every write issued by `fastEdgeDetection` for a sampled pixel `(x, y)` and
offsets `dx, dy ∈ {-1,0,1}` passes the bounds guard, lands on the true
two-dimensional neighbour `(x+dx, y+dy)`, and that neighbour's column and row
stay strictly inside the 1-pixel border. -/
theorem fastTarget_bounds {width height x y : Nat} {dx dy : ℤ}
    (hx : x ∈ sampledCoords width) (hy : y ∈ sampledCoords height)
    (hdx : dx ∈ neighborOffsets) (hdy : dy ∈ neighborOffsets) :
    0 ≤ fastTarget width x y dx dy ∧
    fastTarget width x y dx dy < ((width * height : Nat) : ℤ) ∧
    fastTarget width x y dx dy = ((y : ℤ) + dy) * (width : ℤ) + ((x : ℤ) + dx) ∧
    1 ≤ (x : ℤ) + dx ∧ (x : ℤ) + dx ≤ (width : ℤ) - 2 ∧
    1 ≤ (y : ℤ) + dy ∧ (y : ℤ) + dy ≤ (height : ℤ) - 2 := by
  rw [mem_sampledCoords] at hx hy
  obtain ⟨hx1, hx2, -⟩ := hx
  obtain ⟨hy1, hy2, -⟩ := hy
  have hdx3 : dx = -1 ∨ dx = 0 ∨ dx = 1 := by simpa [neighborOffsets] using hdx
  have hdy3 : dy = -1 ∨ dy = 0 ∨ dy = 1 := by simpa [neighborOffsets] using hdy
  have heq : fastTarget width x y dx dy =
      ((y : ℤ) + dy) * (width : ℤ) + ((x : ℤ) + dx) := by
    unfold fastTarget; push_cast; ring
  have hb1 : 1 ≤ (x : ℤ) + dx := by rcases hdx3 with rfl | rfl | rfl <;> omega
  have hb2 : (x : ℤ) + dx ≤ (width : ℤ) - 2 := by
    rcases hdx3 with rfl | rfl | rfl <;> omega
  have ha1 : 1 ≤ (y : ℤ) + dy := by rcases hdy3 with rfl | rfl | rfl <;> omega
  have ha2 : (y : ℤ) + dy ≤ (height : ℤ) - 2 := by
    rcases hdy3 with rfl | rfl | rfl <;> omega
  have hw0 : (0 : ℤ) ≤ (width : ℤ) := by positivity
  have hprod : ((y : ℤ) + dy) * (width : ℤ) ≤ ((height : ℤ) - 2) * (width : ℤ) :=
    mul_le_mul_of_nonneg_right ha2 hw0
  have hprod0 : (0 : ℤ) ≤ ((y : ℤ) + dy) * (width : ℤ) :=
    mul_nonneg (by linarith) hw0
  refine ⟨?_, ?_, heq, hb1, hb2, ha1, ha2⟩
  · rw [heq]; linarith
  · rw [heq]; push_cast; nlinarith

theorem fastEdgeDetection_apply (data : Nat → Nat) (width height j : Nat) :
    fastEdgeDetection data width height j =
      if ∃ y ∈ sampledCoords height, ∃ x ∈ sampledCoords width,
           30 < fastDiff data width x y ∧
           ∃ dy ∈ neighborOffsets, ∃ dx ∈ neighborOffsets,
             (0 ≤ fastTarget width x y dx dy ∧
              fastTarget width x y dx dy < ((width * height : Nat) : ℤ)) ∧
             (fastTarget width x y dx dy).toNat = j
      then 255 else 0 := by
  have hdx : ∀ (x y : Nat) (r : Nat → Nat) (j : Nat),
      (neighborOffsets.foldl (fun res dy =>
        neighborOffsets.foldl (fun res dx =>
          if 0 ≤ fastTarget width x y dx dy ∧
              fastTarget width x y dx dy < ((width * height : Nat) : ℤ) then
            Function.update res (fastTarget width x y dx dy).toNat 255
          else res) res) r) j =
      if ∃ dy ∈ neighborOffsets, ∃ dx ∈ neighborOffsets,
          (0 ≤ fastTarget width x y dx dy ∧
           fastTarget width x y dx dy < ((width * height : Nat) : ℤ)) ∧
          (fastTarget width x y dx dy).toNat = j then 255 else r j := by
    intro x y r j
    refine foldl_condUpdate_apply _ (fun dy j => ∃ dx ∈ neighborOffsets,
      (0 ≤ fastTarget width x y dx dy ∧
       fastTarget width x y dx dy < ((width * height : Nat) : ℤ)) ∧
      (fastTarget width x y dx dy).toNat = j) ?_ _ _ j
    intro dy r j
    refine foldl_condUpdate_apply _ (fun dx j =>
      (0 ≤ fastTarget width x y dx dy ∧
       fastTarget width x y dx dy < ((width * height : Nat) : ℤ)) ∧
      (fastTarget width x y dx dy).toNat = j) ?_ _ _ j
    intro dx r j
    by_cases hg : 0 ≤ fastTarget width x y dx dy ∧
        fastTarget width x y dx dy < ((width * height : Nat) : ℤ)
    · rw [if_pos hg, Function.update_apply]
      by_cases hj : j = (fastTarget width x y dx dy).toNat
      · rw [if_pos hj, if_pos ⟨hg, hj.symm⟩]
      · rw [if_neg hj, if_neg (fun hcon => hj hcon.2.symm)]
    · rw [if_neg hg, if_neg (fun hcon => hg hcon.1)]
  unfold fastEdgeDetection
  refine foldl_condUpdate_apply _ (fun y j => ∃ x ∈ sampledCoords width,
    30 < fastDiff data width x y ∧ ∃ dy ∈ neighborOffsets, ∃ dx ∈ neighborOffsets,
      (0 ≤ fastTarget width x y dx dy ∧
       fastTarget width x y dx dy < ((width * height : Nat) : ℤ)) ∧
      (fastTarget width x y dx dy).toNat = j) ?_ _ _ j
  intro y r j
  refine foldl_condUpdate_apply _ (fun x j =>
    30 < fastDiff data width x y ∧ ∃ dy ∈ neighborOffsets, ∃ dx ∈ neighborOffsets,
      (0 ≤ fastTarget width x y dx dy ∧
       fastTarget width x y dx dy < ((width * height : Nat) : ℤ)) ∧
      (fastTarget width x y dx dy).toNat = j) ?_ _ _ j
  intro x r j
  by_cases hdiff : 30 < fastDiff data width x y
  · rw [if_pos hdiff, hdx x y r j]
    by_cases hex : ∃ dy ∈ neighborOffsets, ∃ dx ∈ neighborOffsets,
        (0 ≤ fastTarget width x y dx dy ∧
         fastTarget width x y dx dy < ((width * height : Nat) : ℤ)) ∧
        (fastTarget width x y dx dy).toNat = j
    · rw [if_pos hex, if_pos ⟨hdiff, hex⟩]
    · rw [if_neg hex, if_neg (fun hcon => hex hcon.2)]
  · rw [if_neg hdiff, if_neg (fun hcon => hdiff hcon.1)]

/-- C3 (amended): in standard mode, every pixel on the 1-pixel image border is
classified `0`, and an interior pixel is classified `255` exactly when the
*rounded* gradient magnitude stored in the byte array exceeds the threshold
`50` — equivalently, when `9·(Gx² + Gy²) ≥ 22953`, i.e. when the exact
magnitude `√(Gx² + Gy²)` is at least `√(22953/9) ≈ 50.5003` — not when the
exact magnitude merely exceeds `50`. -/
theorem standardMask_spec (data : Nat → Nat) (width height x y : Nat) :
    (¬(1 ≤ x ∧ x + 1 < width ∧ 1 ≤ y ∧ y + 1 < height) →
      standardMask data width height x y = 0) ∧
    ((1 ≤ x ∧ x + 1 < width ∧ 1 ≤ y ∧ y + 1 < height) →
      (standardMask data width height x y = 255 ↔
        (22953 : ℤ) ≤ sobelMagSq9 data width x y)) := by
  constructor
  · intro h
    unfold standardMask applySobelOperator
    rw [if_neg h]
    norm_num
  · intro h
    unfold standardMask applySobelOperator sobelStored
    rw [if_pos h]
    have hiff : 50 < min 255 ((Nat.sqrt (4 * (sobelMagSq9 data width x y).toNat) + 3) / 6) ↔
        (22953 : ℤ) ≤ sobelMagSq9 data width x y := by
      constructor
      · intro hlt
        have h303 : 303 ≤ Nat.sqrt (4 * (sobelMagSq9 data width x y).toNat) := by omega
        have h2 := Nat.le_sqrt.mp h303
        omega
      · intro hge
        have h2 : 303 * 303 ≤ 4 * (sobelMagSq9 data width x y).toNat := by omega
        have h303 := Nat.le_sqrt.mpr h2
        omega
    rw [← hiff]
    split_ifs with hC
    · simp [hC]
    · simp [hC]

/-- C3 witness: the amended characterisation instantiated at the interior
pixel `(1,1)` of the concrete 3×3 image `ex3data`. -/
theorem standardMask_spec_witness :
    standardMask ex3data 3 3 1 1 = 255 ↔ (22953 : ℤ) ≤ sobelMagSq9 ex3data 3 1 1 :=
  (standardMask_spec ex3data 3 3 1 1).2 (by decide)

/-- C3 counterexample: at the interior pixel `(1,1)` of `ex3data` the scaled
squared magnitude is `22644 = 9·2516`, so the exact Sobel magnitude
`√2516 ≈ 50.16` *exceeds* the threshold 50 (`(3·50)² = 22500 < 22644`), yet
the code classifies the pixel `0` because the byte it stores is
`round(√2516) = 50`, which is not `> 50`.  This refutes the claim that a pixel
is classified `255` exactly when the magnitude exceeds 50. -/
theorem standardMask_counterexample :
    sobelMagSq9 ex3data 3 1 1 = 22644 ∧ ((3 * 50 : ℤ) * (3 * 50) < 22644) ∧
    standardMask ex3data 3 3 1 1 = 0 := by
  have hmag : sobelMagSq9 ex3data 3 1 1 = 22644 := by decide
  have hsqrt : Nat.sqrt 90576 = 300 := by
    have h1 : 300 ≤ Nat.sqrt 90576 := Nat.le_sqrt.mpr (by norm_num)
    have h2 : Nat.sqrt 90576 < 301 := Nat.sqrt_lt.mpr (by norm_num)
    omega
  refine ⟨hmag, by norm_num, ?_⟩
  unfold standardMask applySobelOperator sobelStored
  rw [if_pos (by norm_num : 1 ≤ 1 ∧ 1 + 1 < 3 ∧ 1 ≤ 1 ∧ 1 + 1 < 3), hmag]
  have h4 : 4 * (22644 : ℤ).toNat = 90576 := by decide
  norm_num [h4, hsqrt]

/-- C10: every mask write of `fastEdgeDetection` triggered by a sampled pixel
`(x, y)` (so `2 ≤ x < width - 2`, `2 ≤ y < height - 2`, both even) and offsets
`dx, dy ∈ {-1, 0, 1}` passes the bounds guard and lands exactly on the flat
index of the two-dimensional neighbour `(x + dx, y + dy)`, whose column and
row stay strictly inside the 1-pixel border — the flat offset never wraps
across a row boundary and never leaves the mask; consequently every pixel of
the 1-pixel outer border of the fast-mode mask is `0`. -/
theorem fastEdgeDetection_safety (width height : Nat) :
    (∀ (x y : Nat) (dx dy : ℤ), x ∈ sampledCoords width → y ∈ sampledCoords height →
        dx ∈ neighborOffsets → dy ∈ neighborOffsets →
        0 ≤ fastTarget width x y dx dy ∧
        fastTarget width x y dx dy < ((width * height : Nat) : ℤ) ∧
        fastTarget width x y dx dy = ((y : ℤ) + dy) * (width : ℤ) + ((x : ℤ) + dx) ∧
        1 ≤ (x : ℤ) + dx ∧ (x : ℤ) + dx ≤ (width : ℤ) - 2 ∧
        1 ≤ (y : ℤ) + dy ∧ (y : ℤ) + dy ≤ (height : ℤ) - 2) ∧
    (∀ (data : Nat → Nat) (idx : Nat), idx < width * height →
        (idx % width = 0 ∨ idx % width = width - 1 ∨
         idx / width = 0 ∨ idx / width = height - 1) →
        fastEdgeDetection data width height idx = 0) := by
  constructor
  · intro x y dx dy hx hy hdx hdy
    exact fastTarget_bounds hx hy hdx hdy
  · intro data idx hlt hborder
    rw [fastEdgeDetection_apply]
    rw [if_neg ?hn]
    case hn =>
      rintro ⟨y, hy, x, hx, -, dy, hdy, dx, hdx, -, htgt⟩
      obtain ⟨-, -, heq, hb1, hb2, ha1, ha2⟩ := fastTarget_bounds hx hy hdx hdy
      have ha0 : 0 ≤ (y : ℤ) + dy := by linarith
      have hb0 : 0 ≤ (x : ℤ) + dx := by linarith
      obtain ⟨a, hA⟩ : ∃ a : ℕ, ((y : ℤ) + dy) = (a : ℤ) :=
        ⟨((y : ℤ) + dy).toNat, (Int.toNat_of_nonneg ha0).symm⟩
      obtain ⟨b, hB⟩ : ∃ b : ℕ, ((x : ℤ) + dx) = (b : ℤ) :=
        ⟨((x : ℤ) + dx).toNat, (Int.toNat_of_nonneg hb0).symm⟩
      have hj : a * width + b = idx := by
        have hni : fastTarget width x y dx dy = ((a * width + b : Nat) : ℤ) := by
          rw [heq, hA, hB]; push_cast; ring
        rw [hni] at htgt
        simpa using htgt
      have hbw : b < width := by
        rw [hB] at hb1 hb2; omega
      obtain ⟨hm, hd⟩ := mod_div_of_eq hbw hj
      rw [hA] at ha1 ha2
      rw [hB] at hb1 hb2
      rcases hborder with h | h | h | h <;> omega

/-- C10 witness: on a 5×5 image the write targets of the single sampled pixel
are interior, and a border index of the fast mask (here the top-left corner)
evaluates to `0`. -/
theorem fastEdgeDetection_safety_witness :
    fastEdgeDetection (fun _ => 0) 5 5 0 = 0 :=
  (fastEdgeDetection_safety 5 5).2 (fun _ => 0) 0 (by decide) (Or.inl (by decide))

/-- C1: Compositor Strategy A — for every pixel `p` and channel `c` of the
composited frame, if the mask marks `p` foreground (`255`) the output byte
equals the original image byte; otherwise the output equals the text layer's
byte when the text layer's alpha at `p` is positive, and the original byte
when that alpha is `0`. -/
theorem compositeTextBehindMask_spec (mask data textData : Nat → Nat) (p c : Nat)
    (hc : c < 4) :
    compositeTextBehindMask mask data textData (4 * p + c) =
      if mask p = 255 then data (4 * p + c)
      else if 0 < textData (4 * p + 3) then textData (4 * p + c)
      else data (4 * p + c) := by
  simp only [compositeTextBehindMask]
  have hdiv : (4 * p + c) / 4 = p := by omega
  rw [hdiv]

/-- C1 witness: Strategy A at pixel `2`, channel `1`, for concrete buffers. -/
theorem compositeTextBehindMask_spec_witness :
    compositeTextBehindMask (fun _ => 0) (fun i => i) (fun _ => 9) (4 * 2 + 1) =
      if (fun _ => 0 : Nat → Nat) 2 = 255 then (fun i => i : Nat → Nat) (4 * 2 + 1)
      else if 0 < (fun _ => 9 : Nat → Nat) (4 * 2 + 3) then
        (fun _ => 9 : Nat → Nat) (4 * 2 + 1)
      else (fun i => i : Nat → Nat) (4 * 2 + 1) :=
  compositeTextBehindMask_spec (fun _ => 0) (fun i => i) (fun _ => 9) 2 1 (by decide)

/-- C2: Compositor Strategy B — at every pixel where the externally supplied
cutout is fully opaque (its own alpha `= 255`), the final composited channel
equals the cutout channel (normalised) and the final alpha is `1`, regardless
of the mask value or the text layer content, because the cutout drawn last
with `source-over` blending replaces the text-over-background result. -/
theorem renderComposite_cutout_opaque (mask bg text cut : Nat → Nat) (p c : Nat)
    (hA : cut (4 * p + 3) = 255) :
    renderCompositeFinalColor mask bg text cut p c = (cut (4 * p + c) : ℚ) / 255 ∧
    renderCompositeFinalAlpha mask bg text cut p = 1 := by
  unfold renderCompositeFinalColor renderCompositeFinalAlpha srcOverColor srcOverAlpha
  rw [hA]
  norm_num

/-- C2 witness: with an everywhere-opaque cutout, pixel `0` channel `1` of the
final composite equals the cutout value and the final alpha is `1`. -/
theorem renderComposite_cutout_opaque_witness :
    renderCompositeFinalColor (fun _ => 0) (fun _ => 17) (fun _ => 6) (fun _ => 255) 0 1 =
      ((fun _ => 255 : Nat → Nat) (4 * 0 + 1) : ℚ) / 255 ∧
    renderCompositeFinalAlpha (fun _ => 0) (fun _ => 17) (fun _ => 6) (fun _ => 255) 0 = 1 :=
  renderComposite_cutout_opaque (fun _ => 0) (fun _ => 17) (fun _ => 6) (fun _ => 255) 0 1 rfl

/-- C4: the alpha-threshold mask has exactly one entry per pixel of the input
(`data.length / 4`), and each entry is `255` exactly when that pixel's alpha
`data[4p+3]` exceeds `128`, else `0`; in particular alpha `200` yields `255`. -/
theorem createMaskFromForeground_spec (data : List Nat) :
    (createMaskFromForeground data).length = data.length / 4 ∧
    ∀ p, p < data.length / 4 →
      ((createMaskFromForeground data).getD p 0 =
        if 128 < data.getD (4 * p + 3) 0 then 255 else 0) ∧
      (data.getD (4 * p + 3) 0 = 200 → (createMaskFromForeground data).getD p 0 = 255) := by
  constructor
  · simp [createMaskFromForeground]
  · intro p hp
    have hval : (createMaskFromForeground data).getD p 0 =
        if 128 < data.getD (4 * p + 3) 0 then 255 else 0 := by
      unfold createMaskFromForeground
      rw [List.getD_eq_getElem?_getD, List.getElem?_map, List.getElem?_range hp]
      rfl
    refine ⟨hval, fun h200 => ?_⟩
    rw [hval, h200]
    norm_num

/-- C4 witness: a one-pixel image with alpha `200` gives mask entry `255`. -/
theorem createMaskFromForeground_spec_witness :
    (createMaskFromForeground [0, 0, 0, 200]).getD 0 0 = 255 :=
  ((createMaskFromForeground_spec [0, 0, 0, 200]).2 0 (by decide)).2 (by decide)

/-- C9: the canvas-variant `detectForeground` returns a zero-length mask (and
never propagates an exception — the model is a total function into plain
lists) for non-positive canvas dimensions, for an unavailable 2D rendering
context, for zero-length pixel data, and for any exception raised inside the
`try` block. -/
theorem detectForegroundModel_spec (cw ch : Int) (ctxOk fastMode : Bool)
    (getData : Except String (List Nat)) :
    ((cw ≤ 0 ∨ ch ≤ 0) → detectForegroundModel cw ch ctxOk getData fastMode = []) ∧
    (ctxOk = false → detectForegroundModel cw ch ctxOk getData fastMode = []) ∧
    (getData = Except.ok [] → detectForegroundModel cw ch ctxOk getData fastMode = []) ∧
    (∀ e, getData = Except.error e →
      detectForegroundModel cw ch ctxOk getData fastMode = []) := by
  refine ⟨?_, ?_, ?_, ?_⟩
  · intro hdim
    unfold detectForegroundModel
    rw [if_pos hdim]
  · intro hctx
    unfold detectForegroundModel
    by_cases h1 : cw ≤ 0 ∨ ch ≤ 0
    · rw [if_pos h1]
    · rw [if_neg h1, if_pos hctx]
  · intro hok
    unfold detectForegroundModel
    by_cases h1 : cw ≤ 0 ∨ ch ≤ 0
    · rw [if_pos h1]
    · rw [if_neg h1]
      by_cases h2 : ctxOk = false
      · rw [if_pos h2]
      · rw [if_neg h2, hok]
        rfl
  · intro e herr
    unfold detectForegroundModel
    by_cases h1 : cw ≤ 0 ∨ ch ≤ 0
    · rw [if_pos h1]
    · rw [if_neg h1]
      by_cases h2 : ctxOk = false
      · rw [if_pos h2]
      · rw [if_neg h2, herr]
        rfl

/-- C9 witness: a canvas with negative width yields the zero-length mask. -/
theorem detectForegroundModel_spec_witness :
    detectForegroundModel (-1) 5 true (Except.ok [1, 2, 3]) false = [] :=
  (detectForegroundModel_spec (-1) 5 true false (Except.ok [1, 2, 3])).1
    (Or.inl (by decide))

/-- The draw command of line `j` (for `j` in range): the line's characters,
the shared horizontal centre `textX`, and the vertical position
`textY + (j - n/2 + 0.5) * (size * 1.2)`. -/
theorem textDrawCommands_getD (content : List Char) (tX tY size : ℚ) (j : Nat)
    (hj : j < (splitLines content).length) :
    (textDrawCommands content tX tY size).getD j ([], 0, 0) =
      ((splitLines content).getD j [], tX,
       tY + ((j : ℚ) - ((splitLines content).length : ℚ) / 2 + 0.5) * (size * 1.2)) := by
  unfold textDrawCommands
  rw [List.getD_eq_getElem?_getD, List.getElem?_map, List.getElem?_range hj]
  rfl

/-- C8: when the content splits into `n` lines at line breaks, line `i`
(0-indexed) is drawn at vertical offset `(i - n/2 + 0.5) × lineHeight` from
the anchor's `y` with `lineHeight = 1.2 × size`, all lines horizontally
centred at the anchor's `x`; for `n = 1` the offset is exactly `0`, and for
the 2-line content `"A\x0aB"` at size `10` the offsets are `-6` and `+6`. -/
theorem textDrawCommands_spec (content : List Char) (tX tY size : ℚ) (i : Nat)
    (hi : i < (splitLines content).length) :
    (((textDrawCommands content tX tY size).getD i ([], 0, 0)).2.2 =
      tY + ((i : ℚ) - ((splitLines content).length : ℚ) / 2 + 0.5) * (size * 1.2)) ∧
    (((textDrawCommands content tX tY size).getD i ([], 0, 0)).2.1 = tX) ∧
    ((splitLines content).length = 1 →
      ((textDrawCommands content tX tY size).getD 0 ([], 0, 0)).2.2 = tY) ∧
    (((textDrawCommands ['A', '\n', 'B'] tX tY 10).getD 0 ([], 0, 0)).2.2 = tY - 6 ∧
     ((textDrawCommands ['A', '\n', 'B'] tX tY 10).getD 1 ([], 0, 0)).2.2 = tY + 6) := by
  have hAB : (splitLines ['A', '\n', 'B']).length = 2 := by decide
  refine ⟨?_, ?_, ?_, ?_, ?_⟩
  · rw [textDrawCommands_getD content tX tY size i hi]
  · rw [textDrawCommands_getD content tX tY size i hi]
  · intro h1
    rw [textDrawCommands_getD content tX tY size 0 (by omega), h1]
    push_cast
    ring
  · rw [textDrawCommands_getD ['A', '\n', 'B'] tX tY 10 0 (by omega), hAB]
    push_cast
    ring
  · rw [textDrawCommands_getD ['A', '\n', 'B'] tX tY 10 1 (by omega), hAB]
    push_cast
    ring

/-- C8 witness: the layout formula instantiated for the concrete two-line
content `"A\x0aB"` at anchor `(3, 40)` and size `10`. -/
theorem textDrawCommands_spec_witness :
    (((textDrawCommands ['A', '\n', 'B'] 3 40 10).getD 0 ([], 0, 0)).2.2 =
      40 + ((0 : ℚ) - ((splitLines ['A', '\n', 'B']).length : ℚ) / 2 + 0.5) * (10 * 1.2)) ∧
    (((textDrawCommands ['A', '\n', 'B'] 3 40 10).getD 0 ([], 0, 0)).2.1 = 3) ∧
    ((splitLines ['A', '\n', 'B']).length = 1 →
      ((textDrawCommands ['A', '\n', 'B'] 3 40 10).getD 0 ([], 0, 0)).2.2 = 40) ∧
    (((textDrawCommands ['A', '\n', 'B'] 3 40 10).getD 0 ([], 0, 0)).2.2 = 40 - 6 ∧
     ((textDrawCommands ['A', '\n', 'B'] 3 40 10).getD 1 ([], 0, 0)).2.2 = 40 + 6) :=
  textDrawCommands_spec ['A', '\n', 'B'] 3 40 10 0 (by decide)

/-- Facts about `q = ⌊s · (1200 / t)⌋.toNat` for natural `s`, positive `t`:
`q` brackets the exact ratio within one, is at most `1199` when `s < t`, and
at most `1200` when `s ≤ t`. -/
theorem floor_ratio_facts (s t : Nat) (ht : 0 < t) :
    (((⌊(s : ℚ) * ((1200 : ℚ) / (t : ℚ))⌋).toNat : ℚ) ≤
      (s : ℚ) * ((1200 : ℚ) / (t : ℚ))) ∧
    ((s : ℚ) * ((1200 : ℚ) / (t : ℚ)) <
      ((⌊(s : ℚ) * ((1200 : ℚ) / (t : ℚ))⌋).toNat : ℚ) + 1) ∧
    (s < t → (⌊(s : ℚ) * ((1200 : ℚ) / (t : ℚ))⌋).toNat ≤ 1199) ∧
    (s ≤ t → (⌊(s : ℚ) * ((1200 : ℚ) / (t : ℚ))⌋).toNat ≤ 1200) := by
  have ht0 : (0 : ℚ) < (t : ℚ) := by exact_mod_cast ht
  have hv0 : (0 : ℚ) ≤ (s : ℚ) * ((1200 : ℚ) / (t : ℚ)) := by positivity
  have hfl0 : 0 ≤ ⌊(s : ℚ) * ((1200 : ℚ) / (t : ℚ))⌋ := Int.floor_nonneg.mpr hv0
  have hcast : ((⌊(s : ℚ) * ((1200 : ℚ) / (t : ℚ))⌋).toNat : ℤ) =
      ⌊(s : ℚ) * ((1200 : ℚ) / (t : ℚ))⌋ := Int.toNat_of_nonneg hfl0
  have hq : ((⌊(s : ℚ) * ((1200 : ℚ) / (t : ℚ))⌋).toNat : ℚ) =
      ((⌊(s : ℚ) * ((1200 : ℚ) / (t : ℚ))⌋ : ℤ) : ℚ) := by
    exact_mod_cast congrArg (fun z : ℤ => (z : ℚ)) hcast
  refine ⟨?_, ?_, ?_, ?_⟩
  · rw [hq]; exact Int.floor_le _
  · rw [hq]; exact Int.lt_floor_add_one _
  · intro hst
    have hlt : (s : ℚ) * ((1200 : ℚ) / (t : ℚ)) < 1200 := by
      rw [mul_div_assoc']
      rw [div_lt_iff₀ ht0]
      have hst' : (s : ℚ) < (t : ℚ) := by exact_mod_cast hst
      nlinarith
    have hfl : ⌊(s : ℚ) * ((1200 : ℚ) / (t : ℚ))⌋ < 1200 := by
      rw [Int.floor_lt]
      exact_mod_cast hlt
    omega
  · intro hst
    have hle : (s : ℚ) * ((1200 : ℚ) / (t : ℚ)) ≤ 1200 := by
      rw [mul_div_assoc']
      rw [div_le_iff₀ ht0]
      have hst' : (s : ℚ) ≤ (t : ℚ) := by exact_mod_cast hst
      nlinarith
    have hfl : ⌊(s : ℚ) * ((1200 : ℚ) / (t : ℚ))⌋ ≤ 1200 := by
      exact_mod_cast le_trans (Int.floor_le _) hle
    omega

/-- C7: for every positive input size the computed canvas size has both
dimensions in `[1, 1200]`; when both inputs are at most `1200` the output
equals the input exactly; when resizing occurs the longer side is set to
`1200` and the other side brackets the aspect-preserving rational value
within one unit (or is the clamp value `1` when the floored value was `0`). -/
theorem computeCanvasSize_spec (w h : Nat) (hw : 0 < w) (hh : 0 < h) :
    (max (computeCanvasSize w h).1 (computeCanvasSize w h).2 ≤ 1200 ∧
     1 ≤ (computeCanvasSize w h).1 ∧ 1 ≤ (computeCanvasSize w h).2) ∧
    (w ≤ 1200 ∧ h ≤ 1200 → computeCanvasSize w h = (w, h)) ∧
    (1200 < w ∨ 1200 < h →
      (h < w →
        (computeCanvasSize w h).1 = 1200 ∧
        (h : ℚ) * ((1200 : ℚ) / (w : ℚ)) < ((computeCanvasSize w h).2 : ℚ) + 1 ∧
        ((computeCanvasSize w h).2 = 1 ∨
         ((computeCanvasSize w h).2 : ℚ) ≤ (h : ℚ) * ((1200 : ℚ) / (w : ℚ)))) ∧
      (w ≤ h →
        (computeCanvasSize w h).2 = 1200 ∧
        (w : ℚ) * ((1200 : ℚ) / (h : ℚ)) < ((computeCanvasSize w h).1 : ℚ) + 1 ∧
        ((computeCanvasSize w h).1 = 1 ∨
         ((computeCanvasSize w h).1 : ℚ) ≤ (w : ℚ) * ((1200 : ℚ) / (h : ℚ))))) := by
  by_cases hcond : 1200 < w ∨ 1200 < h
  · by_cases hwh : h < w
    · obtain ⟨hf1, hf2, hf3, -⟩ := floor_ratio_facts h w hw
      have hq1199 : (⌊(h : ℚ) * ((1200 : ℚ) / (w : ℚ))⌋).toNat ≤ 1199 := hf3 hwh
      have hpair : computeCanvasSize w h =
          (max 1 1200, max 1 (⌊(h : ℚ) * ((1200 : ℚ) / (w : ℚ))⌋).toNat) := by
        simp only [computeCanvasSize]
        rw [if_pos hcond, if_pos hwh]
        norm_num
      rw [hpair]
      have hqmax : ((⌊(h : ℚ) * ((1200 : ℚ) / (w : ℚ))⌋).toNat : ℚ) ≤
          ((max 1 (⌊(h : ℚ) * ((1200 : ℚ) / (w : ℚ))⌋).toNat : ℕ) : ℚ) := by
        exact_mod_cast le_max_right 1 _
      refine ⟨⟨by omega, by omega, by omega⟩, ?_, ?_⟩
      · rintro ⟨hw1, hh1⟩
        exfalso
        rcases hcond with hc | hc <;> omega
      · intro _
        refine ⟨fun _ => ⟨by omega, by linarith, ?_⟩, fun hwle => absurd hwle (by omega)⟩
        by_cases hq0 : (⌊(h : ℚ) * ((1200 : ℚ) / (w : ℚ))⌋).toNat = 0
        · left
          simp [hq0]
        · right
          have hmax : max 1 (⌊(h : ℚ) * ((1200 : ℚ) / (w : ℚ))⌋).toNat =
              (⌊(h : ℚ) * ((1200 : ℚ) / (w : ℚ))⌋).toNat := by omega
          rw [hmax]
          exact hf1
    · obtain ⟨hf1, hf2, -, hf4⟩ := floor_ratio_facts w h hh
      have hq1200 : (⌊(w : ℚ) * ((1200 : ℚ) / (h : ℚ))⌋).toNat ≤ 1200 := hf4 (by omega)
      have hpair : computeCanvasSize w h =
          (max 1 (⌊(w : ℚ) * ((1200 : ℚ) / (h : ℚ))⌋).toNat, max 1 1200) := by
        simp only [computeCanvasSize]
        rw [if_pos hcond, if_neg hwh]
        norm_num
      rw [hpair]
      have hqmax : ((⌊(w : ℚ) * ((1200 : ℚ) / (h : ℚ))⌋).toNat : ℚ) ≤
          ((max 1 (⌊(w : ℚ) * ((1200 : ℚ) / (h : ℚ))⌋).toNat : ℕ) : ℚ) := by
        exact_mod_cast le_max_right 1 _
      refine ⟨⟨by omega, by omega, by omega⟩, ?_, ?_⟩
      · rintro ⟨hw1, hh1⟩
        exfalso
        rcases hcond with hc | hc <;> omega
      · intro _
        refine ⟨fun hlt => absurd hlt (by omega), fun _ => ⟨by omega, by linarith, ?_⟩⟩
        by_cases hq0 : (⌊(w : ℚ) * ((1200 : ℚ) / (h : ℚ))⌋).toNat = 0
        · left
          simp [hq0]
        · right
          have hmax : max 1 (⌊(w : ℚ) * ((1200 : ℚ) / (h : ℚ))⌋).toNat =
              (⌊(w : ℚ) * ((1200 : ℚ) / (h : ℚ))⌋).toNat := by omega
          rw [hmax]
          exact hf1
  · have hpair : computeCanvasSize w h = (max 1 w, max 1 h) := by
      simp only [computeCanvasSize]
      rw [if_neg hcond]
    push_neg at hcond
    rw [hpair]
    refine ⟨⟨by omega, by omega, by omega⟩, ?_, ?_⟩
    · intro _
      have hx : max 1 w = w := by omega
      have hy : max 1 h = h := by omega
      rw [hx, hy]
    · intro hcon
      exfalso
      rcases hcon with hc | hc <;> omega

/-- C7 witness: a 2400×600 image is resized to fit the 1200-pixel bound. -/
theorem computeCanvasSize_spec_witness :
    max (computeCanvasSize 2400 600).1 (computeCanvasSize 2400 600).2 ≤ 1200 ∧
    1 ≤ (computeCanvasSize 2400 600).1 ∧ 1 ≤ (computeCanvasSize 2400 600).2 :=
  (computeCanvasSize_spec 2400 600 (by decide) (by decide)).1

end Overlay
